import Mathlib

/-! Verification development.
Verification of the participation-probability tracker
(`src/tiss_tuwel_cli/participation_tracker.py`).

The persisted store is a JSON object mapping string-encoded course ids to
course records.  We embed it as an association list of `String` keys and
`CourseRecord` values; Python-dict semantics (unique keys, in-place update,
append on fresh insert, `del` removal) are mirrored by `lookupS`, `updateS`,
`setCourse` and `eraseS`.  Python float arithmetic in the probability
computation is embedded as exact rational arithmetic over `ℚ`.
-/

namespace ParticipationTracker

/-- One recorded session: a date string, an exercise label and the
called-or-not flag, as stored under the sessions key of a course. -/
structure SessionRecord where
  date : String
  exercise : String
  was_called : Bool
deriving DecidableEq

/-- One course entry of the persisted store: the display name, the assumed
group size and the ordered session history. -/
structure CourseRecord where
  course_name : String
  group_size : Int
  sessions : List SessionRecord
deriving DecidableEq

/-- The persisted mapping, embedded as an association list with
Python-dict semantics. -/
abbrev Store := List (String × CourseRecord)

/-- Dict lookup: `data.get(key)`. -/
def lookupS : Store → String → Option CourseRecord
  | [], _ => none
  | (k, c) :: rest, key => if k = key then some c else lookupS rest key

/-- Dict in-place update of an existing key: `data[key] = c`. -/
def updateS : Store → String → CourseRecord → Store
  | [], _, _ => []
  | (k, c) :: rest, key, c' =>
      if k = key then (key, c') :: rest else (k, c) :: updateS rest key c'

/-- Dict write `data[key] = c`: update in place when the key is present,
append at the end when it is fresh. -/
def setCourse (s : Store) (key : String) (c : CourseRecord) : Store :=
  if (lookupS s key).isSome then updateS s key c else s ++ [(key, c)]

/-- Dict removal `del data[key]`. -/
def eraseS : Store → String → Store
  | [], _ => []
  | (k, c) :: rest, key => if k = key then rest else (k, c) :: eraseS rest key

/-- The resolved date of `record_participation`:
`session_date = date or today`, where `today` is the current local date
rendered by the tracker.  Python truthiness makes both the absent date and
the empty string fall back to `today`. -/
def sessionDate (date : Option String) (today : String) : String :=
  match date with
  | some d => if d = "" then today else d
  | none => today

/-- `ParticipationTracker.record_participation`, acting on the loaded store.
`today` stands for the current local calendar date at call time. -/
def record_participation (s : Store) (course_id : Int) (course_name : String)
    (exercise_name : String) (was_called : Bool) (date : Option String)
    (today : String) : Store :=
  let course_key := toString course_id
  let base : CourseRecord :=
    match lookupS s course_key with
    | some c => c
    | none => { course_name := course_name, group_size := 1, sessions := [] }
  let withName := { base with course_name := course_name }
  let sess : SessionRecord :=
    { date := sessionDate date today, exercise := exercise_name,
      was_called := was_called }
  setCourse s course_key { withName with sessions := withName.sessions ++ [sess] }

/-- `ParticipationTracker.set_group_size`: writes the supplied value only when
the course already exists; otherwise the store is left untouched. -/
def set_group_size (s : Store) (course_id : Int) (group_size : Int) : Store :=
  let course_key := toString course_id
  match lookupS s course_key with
  | some c => setCourse s course_key { c with group_size := group_size }
  | none => s

/-- `ParticipationTracker.get_course_data`: `data.get(str(course_id))`. -/
def get_course_data (s : Store) (course_id : Int) : Option CourseRecord :=
  lookupS s (toString course_id)

/-- Decimal digits read left to right into an accumulator; `none` on the
first non-digit character. -/
def readDigits : List Char → Nat → Option Nat
  | [], acc => some acc
  | c :: cs, acc =>
      if c.isDigit then readDigits cs (acc * 10 + (c.toNat - 48)) else none

/-- Python `int(k)` on a decimal string: an optional leading minus sign
followed by at least one digit.  Keys written by the tracker are always
`str(course_id)`, on which this recovers the id. -/
def pyInt (s : String) : Option Int :=
  match s.data with
  | [] => none
  | '-' :: [] => none
  | '-' :: c :: cs => (readDigits (c :: cs) 0).map (fun n => -(n : Int))
  | cs => (readDigits cs 0).map (fun n => (n : Int))

/-- `ParticipationTracker.get_all_courses`:
the comprehension over `int(k)` applied to every stored key.  In Python,
`int` raises on a key that is not a decimal integer; such keys never occur
in stores written by the tracker (see `StoreWF`), and are skipped here. -/
def get_all_courses (s : Store) : List (Int × CourseRecord) :=
  s.filterMap (fun p =>
    match pyInt p.1 with
    | some n => some (n, p.2)
    | none => none)

/-- `ParticipationTracker.delete_course_data`: returns the deleted-flag
together with the store left behind. -/
def delete_course_data (s : Store) (course_id : Int) : Bool × Store :=
  let course_key := toString course_id
  if (lookupS s course_key).isSome then (true, eraseS s course_key)
  else (false, s)

/-- Module constant `ADJUSTMENT_FACTOR = 0.5`. -/
def ADJUSTMENT_FACTOR : ℚ := 1 / 2

/-- `max(lo, min(hi, x))`, the clamping idiom of `calculate_probability`. -/
def clampQ (lo hi x : ℚ) : ℚ := max lo (min hi x)

/-- The read-time group-size guard: `if group_size < 1: group_size = 1`. -/
def effGroup (g : Int) : Int := if g < 1 then 1 else g

/-- The count of sessions whose called flag is set, as summed by the
generator inside `calculate_probability`. -/
def countCalled (sessions : List SessionRecord) : Nat :=
  (sessions.filter (fun s => s.was_called)).length

/-- The fairness-adjusted probability on the internal 0-to-1 scale:
the `if expected_calls > 0` branch of `calculate_probability`. -/
def adjustedProb (base expected : ℚ) (called : Nat) : ℚ :=
  if 0 < expected then
    clampQ 0 1 (base * (1 + clampQ (-1) 1 ((expected - (called : ℚ)) / expected)
      * ADJUSTMENT_FACTOR))
  else base

/-- The structured result of `calculate_probability`. -/
structure ProbabilityStats where
  course_id : Int
  course_name : String
  total_sessions : Nat
  times_called : Nat
  group_size : Int
  base_probability : ℚ
  adjusted_probability : ℚ
  expected_calls : ℚ
  sessions : List SessionRecord
deriving DecidableEq

/-- `ParticipationTracker.calculate_probability`, acting on the loaded store:
`None` when the course is absent or has no sessions, otherwise the
statistics record with percentages on the 0-to-100 scale. -/
def calculate_probability (s : Store) (course_id : Int) :
    Option ProbabilityStats :=
  match lookupS s (toString course_id) with
  | none => none
  | some c =>
      if c.sessions.isEmpty then none
      else
        let g := effGroup c.group_size
        let total := c.sessions.length
        let called := countCalled c.sessions
        let base_prob : ℚ := 1 / (g : ℚ)
        let expected : ℚ := (total : ℚ) / (g : ℚ)
        some
          { course_id := course_id
            course_name := c.course_name
            total_sessions := total
            times_called := called
            group_size := g
            base_probability := base_prob * 100
            adjusted_probability := adjustedProb base_prob expected called * 100
            expected_calls := expected
            sessions := c.sessions.drop (c.sessions.length - 5) }

/-- Outcome of parsing the bytes of the persisted file as JSON: either a JSON
object (here already typed as a store) or some other JSON value. -/
inductive JsonValue where
  | obj (d : Store)
  | nonObj (tag : Nat)
deriving DecidableEq

/-- The persisted file as `_load_data` can encounter it: missing
(`FileNotFoundError`), not parseable as JSON (`json.JSONDecodeError`), or
holding a parseable JSON value. -/
inductive FileContent where
  | missing
  | invalid
  | json (v : JsonValue)
deriving DecidableEq

/-- `ParticipationTracker._load_data`: `json.load` wrapped in
`except (json.JSONDecodeError, FileNotFoundError): return` the empty dict.
A total function — the two caught exceptions are the only failure paths of
the body. -/
def load_data : FileContent → JsonValue
  | .missing => .obj []
  | .invalid => .obj []
  | .json v => v

/-- The parameters of one `record_participation` call for a fixed course id;
`today` is the wall-clock date at the moment of that call. -/
structure RecordCall where
  course_name : String
  exercise_name : String
  was_called : Bool
  date : Option String
  today : String

/-- The session that a given `record_participation` call appends. -/
def toSession (rc : RecordCall) : SessionRecord :=
  { date := sessionDate rc.date rc.today, exercise := rc.exercise_name,
    was_called := rc.was_called }

/-- A sequence of `record_participation` calls for the same course id. -/
def recordAll (s : Store) (id : Int) (calls : List RecordCall) : Store :=
  calls.foldl
    (fun st rc => record_participation st id rc.course_name rc.exercise_name
      rc.was_called rc.date rc.today) s

/-- Store states reachable through a Python dict: keys are distinct and each
key is the canonical decimal rendering `str(n)` of an integer, on which
`int(k)` recovers `n`. -/
def StoreWF (s : Store) : Prop :=
  (s.map Prod.fst).Nodup ∧
    ∀ p ∈ s, ∃ n : Int, p.1 = toString n ∧ pyInt p.1 = some n

/-- `get_course_data` paired with the persisted store after the call; the
method body never calls `_save_data`, so the store component is the loaded
store unchanged. -/
def get_course_data_st (s : Store) (course_id : Int) :
    Option CourseRecord × Store :=
  (get_course_data s course_id, s)

/-- `get_all_courses` paired with the persisted store after the call. -/
def get_all_courses_st (s : Store) : List (Int × CourseRecord) × Store :=
  (get_all_courses s, s)

/-- `calculate_probability` paired with the persisted store after the call. -/
def calculate_probability_st (s : Store) (course_id : Int) :
    Option ProbabilityStats × Store :=
  (calculate_probability s course_id, s)

/-! Helper lemmas about the store operations. -/

lemma lookupS_updateS_self (s : Store) (k : String) (c : CourseRecord)
    (h : (lookupS s k).isSome) : lookupS (updateS s k c) k = some c := by
  induction s with
  | nil => simp [lookupS] at h
  | cons p rest ih =>
      obtain ⟨k₁, c₁⟩ := p
      by_cases hk : k₁ = k
      · simp [updateS, lookupS, hk]
      · simp only [lookupS, updateS, if_neg hk] at h ⊢
        exact ih h

lemma lookupS_append_of_none (s l : Store) (k : String)
    (h : lookupS s k = none) : lookupS (s ++ l) k = lookupS l k := by
  induction s with
  | nil => simp
  | cons p rest ih =>
      obtain ⟨k₁, c₁⟩ := p
      by_cases hk : k₁ = k
      · simp [lookupS, hk] at h
      · simp only [lookupS, if_neg hk, List.cons_append] at h ⊢
        exact ih h

lemma lookupS_setCourse_self (s : Store) (k : String) (c : CourseRecord) :
    lookupS (setCourse s k c) k = some c := by
  unfold setCourse
  cases h : lookupS s k with
  | some c₀ => simp only [h, Option.isSome_some, if_true]
               exact lookupS_updateS_self s k c (by simp [h])
  | none => simp only [h, Option.isSome_none, Bool.false_eq_true, if_false]
            rw [lookupS_append_of_none s _ k h]
            simp [lookupS]

lemma isSome_lookupS_of_mem (s : Store) (k : String) (c : CourseRecord)
    (h : (k, c) ∈ s) : (lookupS s k).isSome := by
  induction s with
  | nil => simp at h
  | cons p rest ih =>
      obtain ⟨k₁, c₁⟩ := p
      rcases List.mem_cons.mp h with heq | hmem
      · cases heq
        simp [lookupS]
      · by_cases hk : k₁ = k
        · simp [lookupS, hk]
        · simp only [lookupS, if_neg hk]
          exact ih hmem

lemma lookupS_eraseS_self (s : Store) (k : String)
    (hnd : (s.map Prod.fst).Nodup) : lookupS (eraseS s k) k = none := by
  induction s with
  | nil => simp [eraseS, lookupS]
  | cons p rest ih =>
      obtain ⟨k₁, c₁⟩ := p
      simp only [List.map_cons, List.nodup_cons] at hnd
      by_cases hk : k₁ = k
      · simp only [eraseS, if_pos hk]
        cases h : lookupS rest k with
        | none => rfl
        | some c =>
            exfalso
            subst hk
            apply hnd.1
            clear ih hnd
            induction rest with
            | nil => simp [lookupS] at h
            | cons q tail ihq =>
                obtain ⟨k₂, c₂⟩ := q
                by_cases hk2 : k₂ = k₁
                · simp [hk2]
                · simp only [lookupS, if_neg hk2] at h
                  simp [ihq h]
      · simp only [eraseS, if_neg hk, lookupS]
        exact ih hnd.2

lemma mem_of_mem_eraseS (s : Store) (k : String) (p : String × CourseRecord)
    (h : p ∈ eraseS s k) : p ∈ s := by
  induction s with
  | nil => simp [eraseS] at h
  | cons q rest ih =>
      obtain ⟨k₁, c₁⟩ := q
      by_cases hk : k₁ = k
      · simp only [eraseS, if_pos hk] at h
        exact List.mem_cons_of_mem _ h
      · simp only [eraseS, if_neg hk] at h
        rcases List.mem_cons.mp h with heq | hmem
        · exact heq ▸ List.mem_cons_self _ _
        · exact List.mem_cons_of_mem _ (ih hmem)

/-! Helper lemmas about the probability arithmetic. -/

lemma effGroup_ge_one (g : Int) : 1 ≤ effGroup g := by
  unfold effGroup
  split
  · exact le_refl 1
  · omega

lemma clampQ_zero_one_mul_100 (x : ℚ) :
    clampQ 0 1 x * 100 = clampQ 0 100 (x * 100) := by
  unfold clampQ
  rw [max_mul_of_nonneg _ _ (by norm_num : (0 : ℚ) ≤ 100),
      min_mul_of_nonneg _ _ (by norm_num : (0 : ℚ) ≤ 100)]
  norm_num

lemma adjustedProb_bounds (base expected : ℚ) (called : Nat)
    (h0 : 0 ≤ base) (h1 : base ≤ 1) :
    0 ≤ adjustedProb base expected called ∧
      adjustedProb base expected called ≤ 1 := by
  unfold adjustedProb clampQ
  split
  · exact ⟨le_max_left 0 _, max_le (by norm_num) (min_le_left 1 _)⟩
  · exact ⟨h0, h1⟩

lemma adjustedProb_mul_100 (g expected : ℚ)
    (he : 0 < expected) (called : Nat) :
    adjustedProb (1 / g) expected called * 100 =
      clampQ 0 100 (100 / g *
        (1 + clampQ (-1) 1 ((expected - (called : ℚ)) / expected)
          * ADJUSTMENT_FACTOR)) := by
  unfold adjustedProb
  rw [if_pos he, clampQ_zero_one_mul_100]
  have harg : 1 / g *
      (1 + clampQ (-1) 1 ((expected - (called : ℚ)) / expected)
        * ADJUSTMENT_FACTOR) * 100 =
      100 / g *
      (1 + clampQ (-1) 1 ((expected - (called : ℚ)) / expected)
        * ADJUSTMENT_FACTOR) := by
    ring
  rw [harg]

/-! Helper lemmas about recording sequences of sessions. -/

lemma lookupS_record (s : Store) (id : Int) (n ex : String) (b : Bool)
    (d : Option String) (t : String) :
    lookupS (record_participation s id n ex b d t) (toString id) =
      some { course_name := n
             group_size :=
               match lookupS s (toString id) with
               | some c => c.group_size
               | none => 1
             sessions :=
               (match lookupS s (toString id) with
                | some c => c.sessions
                | none => []) ++
               [{ date := sessionDate d t, exercise := ex, was_called := b }] } := by
  cases heq : lookupS s (toString id) with
  | none => simp only [record_participation, heq, lookupS_setCourse_self]
  | some c => simp only [record_participation, heq, lookupS_setCourse_self]

lemma recordAll_cons (s : Store) (id : Int) (rc : RecordCall)
    (rest : List RecordCall) :
    recordAll s id (rc :: rest) =
      recordAll (record_participation s id rc.course_name rc.exercise_name
        rc.was_called rc.date rc.today) id rest := rfl

lemma recordAll_sessions (id : Int) (calls : List RecordCall) :
    ∀ (s : Store) (c₀ : CourseRecord),
      lookupS s (toString id) = some c₀ →
      ∃ c₁, lookupS (recordAll s id calls) (toString id) = some c₁ ∧
        c₁.sessions = c₀.sessions ++ calls.map toSession := by
  induction calls with
  | nil =>
      intro s c₀ h
      exact ⟨c₀, h, by simp⟩
  | cons rc rest ih =>
      intro s c₀ h
      rw [recordAll_cons]
      obtain ⟨c₁, h₁, hsess⟩ := ih
        (record_participation s id rc.course_name rc.exercise_name
          rc.was_called rc.date rc.today)
        { course_name := rc.course_name
          group_size := c₀.group_size
          sessions := c₀.sessions ++ [toSession rc] }
        (by rw [lookupS_record, h]; rfl)
      refine ⟨c₁, h₁, ?_⟩
      rw [hsess]
      simp [List.append_assoc, toSession]

lemma countCalled_map_toSession (calls : List RecordCall) :
    countCalled (calls.map toSession) =
      (calls.filter (fun rc => rc.was_called)).length := by
  induction calls with
  | nil => rfl
  | cons rc rest ih =>
      unfold countCalled at ih ⊢
      cases hb : rc.was_called <;>
        simp [toSession, List.filter, hb, ih]

/-! Concrete stores used by witnesses and counterexamples. -/

/-- The worked example of the specification: group size 5, four sessions of
which only the last was a call. -/
def demoCourse : CourseRecord :=
  { course_name := "Algebra UE", group_size := 5,
    sessions :=
      [ { date := "2026-01-01", exercise := "Ex1", was_called := false },
        { date := "2026-01-08", exercise := "Ex2", was_called := false },
        { date := "2026-01-15", exercise := "Ex3", was_called := false },
        { date := "2026-01-22", exercise := "Ex4", was_called := true } ] }

/-- A store holding only `demoCourse` under course id 101. -/
def demoStore : Store := [("101", demoCourse)]

/-- A one-session course with group size 1. -/
def unitCourse : CourseRecord :=
  { course_name := "A", group_size := 1,
    sessions := [{ date := "2026-01-01", exercise := "Ex1", was_called := true }] }

/-- A store holding only `unitCourse` under course id 1. -/
def unitStore : Store := [("1", unitCourse)]

/-- The statistics `calculate_probability` produces for `unitStore`. -/
def unitStats : ProbabilityStats :=
  { course_id := 1, course_name := "A", total_sessions := 1, times_called := 1,
    group_size := 1, base_probability := 100, adjusted_probability := 100,
    expected_calls := 1,
    sessions := [{ date := "2026-01-01", exercise := "Ex1", was_called := true }] }

lemma calc_unitStore : calculate_probability unitStore 1 = some unitStats := by
  have hl : lookupS unitStore (toString (1 : Int)) = some unitCourse := by decide
  simp only [calculate_probability, hl]
  norm_num [unitCourse, unitStats, adjustedProb, clampQ, effGroup, countCalled,
    ADJUSTMENT_FACTOR]

/-! The claims. -/

/-- C2, counterexample: on a store whose course 1 exists, `set_group_size`
with the value 0 writes 0 to the store unclamped, so the stored
`group_size` is not ≥ 1. -/
theorem C2_group_size_counterexample :
    (lookupS (set_group_size unitStore 1 0) "1").map
        (fun c => c.group_size) = some 0 ∧ ¬ (1 : Int) ≤ 0 := by
  decide

/-- C2, amended: `set_group_size` stores the supplied value without
clamping; the clamp to 1 happens at computation time, so the group size
reported by `calculate_probability` (the one the probability model uses)
is always at least 1. -/
theorem C2_group_size_clamped_at_read (s : Store) (id : Int)
    (r : ProbabilityStats) (h : calculate_probability s id = some r) :
    1 ≤ r.group_size := by
  cases hl : lookupS s (toString id) with
  | none => simp [calculate_probability, hl] at h
  | some c =>
      simp only [calculate_probability, hl] at h
      by_cases he : c.sessions.isEmpty = true
      · simp [he] at h
      · simp only [if_neg he, Option.some.injEq] at h
        subst h
        exact effGroup_ge_one c.group_size

/-- C2, witness at `unitStore`. -/
theorem C2_witness : 1 ≤ unitStats.group_size :=
  C2_group_size_clamped_at_read unitStore 1 unitStats calc_unitStore

/-- C3, counterexample: a persisted file holding valid JSON that is not an
object (so not a well-formed serialized store) is returned as parsed by
`_load_data`, not replaced by the empty mapping. -/
theorem C3_load_counterexample :
    load_data (FileContent.json (JsonValue.nonObj 0)) = JsonValue.nonObj 0 ∧
      JsonValue.nonObj 0 ≠ JsonValue.obj [] := by
  decide

/-- C3, amended: for a persisted file that is missing or fails to parse as
JSON, `_load_data` returns the empty mapping and does not raise (it is a
total function on these inputs); valid JSON that is not an object is
returned as parsed. -/
theorem C3_load_empty_on_missing_or_invalid (f : FileContent)
    (h : f = FileContent.missing ∨ f = FileContent.invalid) :
    load_data f = JsonValue.obj [] := by
  rcases h with h | h <;> subst h <;> rfl

/-- C3, witness at an unparseable file. -/
theorem C3_witness : load_data FileContent.invalid = JsonValue.obj [] :=
  C3_load_empty_on_missing_or_invalid FileContent.invalid (Or.inr rfl)

/-- C5: a course that is absent from the store, or present with an empty
session list, makes `calculate_probability` return `none` rather than
statistics (and, being a total function, it cannot raise). -/
theorem C5_no_data_returns_none (s : Store) (id : Int)
    (h : get_course_data s id = none ∨
      ∃ c, get_course_data s id = some c ∧ c.sessions = []) :
    calculate_probability s id = none := by
  rcases h with h | ⟨c, h, hc⟩
  · have hl : lookupS s (toString id) = none := h
    simp [calculate_probability, hl]
  · have hl : lookupS s (toString id) = some c := h
    simp [calculate_probability, hl, hc]

/-- C5, witness at the empty store. -/
theorem C5_witness : calculate_probability [] 0 = none :=
  C5_no_data_returns_none [] 0 (Or.inl rfl)

/-- C7: `set_group_size` on a course id that is absent from the store
leaves the store unchanged, does not create the course, and a subsequent
`get_course_data` still returns `none`. -/
theorem C7_set_group_size_noop (s : Store) (id g : Int)
    (h : get_course_data s id = none) :
    set_group_size s id g = s ∧
      get_course_data (set_group_size s id g) id = none := by
  have hl : lookupS s (toString id) = none := h
  have h2 : set_group_size s id g = s := by simp [set_group_size, hl]
  exact ⟨h2, by rw [h2]; exact h⟩

/-- C7, witness at the empty store. -/
theorem C7_witness :
    set_group_size [] 7 0 = [] ∧
      get_course_data (set_group_size [] 7 0) 7 = none :=
  C7_set_group_size_noop [] 7 0 rfl

/-- C10: the read operations `get_course_data`, `get_all_courses` and
`calculate_probability` leave the persisted store exactly as loaded —
their bodies never call `_save_data`. -/
theorem C10_reads_pure (s : Store) (id : Int) :
    (get_course_data_st s id).2 = s ∧ (get_all_courses_st s).2 = s ∧
      (calculate_probability_st s id).2 = s :=
  ⟨rfl, rfl, rfl⟩

/-- C1: for a stored course with a nonempty session history,
`calculate_probability` reports `total_sessions` as the session count,
`times_called` as the count of called sessions, `base_probability` as
100 over the effective group size, `expected_calls` as sessions over group
size, and `adjusted_probability` as the base percentage scaled by
1 plus the clamped fairness gap times `ADJUSTMENT_FACTOR`, clamped to
the interval from 0 to 100. -/
theorem C1_estimate_formula (s : Store) (id : Int) (c : CourseRecord)
    (h : get_course_data s id = some c) (hne : c.sessions ≠ []) :
    ∃ r, calculate_probability s id = some r ∧
      r.total_sessions = c.sessions.length ∧
      r.times_called = countCalled c.sessions ∧
      r.base_probability = 100 / (effGroup c.group_size : ℚ) ∧
      r.expected_calls =
        (c.sessions.length : ℚ) / (effGroup c.group_size : ℚ) ∧
      r.adjusted_probability =
        clampQ 0 100 (100 / (effGroup c.group_size : ℚ) *
          (1 + clampQ (-1) 1
            (((c.sessions.length : ℚ) / (effGroup c.group_size : ℚ) -
                (countCalled c.sessions : ℚ)) /
              ((c.sessions.length : ℚ) / (effGroup c.group_size : ℚ)))
            * ADJUSTMENT_FACTOR)) := by
  have hl : lookupS s (toString id) = some c := h
  have hb : c.sessions.isEmpty = false := by
    cases hx : c.sessions with
    | nil => exact absurd hx hne
    | cons a l => rfl
  simp only [calculate_probability, hl, hb, Bool.false_eq_true, if_false]
  refine ⟨_, rfl, rfl, rfl, by ring, rfl, ?_⟩
  have hg1 : (1 : ℚ) ≤ (effGroup c.group_size : ℚ) := by
    exact_mod_cast effGroup_ge_one c.group_size
  have hg : (0 : ℚ) < (effGroup c.group_size : ℚ) := zero_lt_one.trans_le hg1
  have hn : (0 : ℚ) < (c.sessions.length : ℚ) := by
    exact_mod_cast List.length_pos.mpr hne
  exact adjustedProb_mul_100 _ _ (div_pos hn hg) _

/-- C1, witness: the worked example of the specification — group size 5 and
sessions called false, false, false, true give `total_sessions = 4`,
`times_called = 1`, `base_probability = 20`, `expected_calls = 4/5` and
`adjusted_probability = 17.5`. -/
theorem C1_witness :
    ∃ r, calculate_probability demoStore 101 = some r ∧
      r.total_sessions = 4 ∧ r.times_called = 1 ∧ r.base_probability = 20 ∧
      r.expected_calls = 4 / 5 ∧ r.adjusted_probability = 35 / 2 := by
  obtain ⟨r, h1, h2, h3, h4, h5, h6⟩ :=
    C1_estimate_formula demoStore 101 demoCourse (by decide) (by decide)
  refine ⟨r, h1, ?_, ?_, ?_, ?_, ?_⟩
  · rw [h2]; rfl
  · rw [h3]; rfl
  · rw [h4]; norm_num [demoCourse, effGroup]
  · rw [h5]; norm_num [demoCourse, effGroup]
  · rw [h6]
    norm_num [demoCourse, effGroup, countCalled, clampQ, ADJUSTMENT_FACTOR]

/-- C4: whenever `calculate_probability` returns statistics, the reported
`adjusted_probability` lies in the interval from 0 to 100, and the internal
0-to-1 scale value (the percentage divided by 100) lies in the interval
from 0 to 1, for every course history and stored group size. -/
theorem C4_adjusted_probability_bounds (s : Store) (id : Int)
    (r : ProbabilityStats) (h : calculate_probability s id = some r) :
    0 ≤ r.adjusted_probability ∧ r.adjusted_probability ≤ 100 ∧
      0 ≤ r.adjusted_probability / 100 ∧ r.adjusted_probability / 100 ≤ 1 := by
  cases hl : lookupS s (toString id) with
  | none => simp [calculate_probability, hl] at h
  | some c =>
      simp only [calculate_probability, hl] at h
      by_cases he : c.sessions.isEmpty = true
      · simp [he] at h
      · simp only [if_neg he, Option.some.injEq] at h
        subst h
        have hg1 : (1 : ℚ) ≤ (effGroup c.group_size : ℚ) := by
          exact_mod_cast effGroup_ge_one c.group_size
        have hg : (0 : ℚ) < (effGroup c.group_size : ℚ) :=
          zero_lt_one.trans_le hg1
        have hbase0 : (0 : ℚ) ≤ 1 / (effGroup c.group_size : ℚ) :=
          le_of_lt (div_pos one_pos hg)
        have hbase1 : 1 / (effGroup c.group_size : ℚ) ≤ 1 := by
          rw [div_le_one hg]; exact hg1
        obtain ⟨hA, hB⟩ := adjustedProb_bounds
          (1 / (effGroup c.group_size : ℚ))
          ((c.sessions.length : ℚ) / (effGroup c.group_size : ℚ))
          (countCalled c.sessions) hbase0 hbase1
        refine ⟨mul_nonneg hA (by norm_num), ?_,
          div_nonneg (mul_nonneg hA (by norm_num)) (by norm_num), ?_⟩
        · exact le_trans
            (mul_le_mul_of_nonneg_right hB (by norm_num)) (by norm_num)
        · rw [div_le_one (by norm_num : (0 : ℚ) < 100)]
          exact le_trans
            (mul_le_mul_of_nonneg_right hB (by norm_num)) (by norm_num)

/-- C4, witness at `unitStore`. -/
theorem C4_witness :
    0 ≤ unitStats.adjusted_probability ∧
      unitStats.adjusted_probability ≤ 100 ∧
      0 ≤ unitStats.adjusted_probability / 100 ∧
      unitStats.adjusted_probability / 100 ≤ 1 :=
  C4_adjusted_probability_bounds unitStore 1 unitStats calc_unitStore

/-- C6: on a dict-shaped store, `delete_course_data` returns true exactly
when the course id is present; after deleting a present id, `get_course_data`
returns `none` and `get_all_courses` contains no entry with that id; on an
absent id the store is returned unchanged. -/
theorem C6_delete_course (s : Store) (id : Int) (hwf : StoreWF s) :
    ((delete_course_data s id).1 = true ↔
      (get_course_data s id).isSome = true) ∧
    ((get_course_data s id).isSome = true →
      get_course_data (delete_course_data s id).2 id = none ∧
      ∀ q ∈ get_all_courses (delete_course_data s id).2, q.1 ≠ id) ∧
    (get_course_data s id = none → (delete_course_data s id).2 = s) := by
  obtain ⟨hnd, hkeys⟩ := hwf
  by_cases hs : (lookupS s (toString id)).isSome = true
  · have hdel : delete_course_data s id = (true, eraseS s (toString id)) := by
      simp [delete_course_data, hs]
    have herase : lookupS (eraseS s (toString id)) (toString id) = none :=
      lookupS_eraseS_self s (toString id) hnd
    simp only [hdel]
    refine ⟨⟨fun _ => hs, fun _ => trivial⟩, fun _ => ⟨herase, ?_⟩, fun hno => ?_⟩
    · intro q hq
      obtain ⟨p, hp, hfp⟩ := List.mem_filterMap.mp hq
      obtain ⟨m, hm1, hm2⟩ := hkeys p (mem_of_mem_eraseS s (toString id) p hp)
      rw [hm2] at hfp
      cases hfp
      intro hqid
      have hm : m = id := hqid
      rw [hm] at hm1
      have hmem2 : (p.1, p.2) ∈ eraseS s (toString id) := by
        rw [Prod.mk.eta]
        exact hp
      have hsome := isSome_lookupS_of_mem (eraseS s (toString id)) p.1 p.2 hmem2
      rw [hm1, herase] at hsome
      simp at hsome
    · have hl : lookupS s (toString id) = none := hno
      rw [hl] at hs
      simp at hs
  · have hlnone : lookupS s (toString id) = none := by
      cases hx : lookupS s (toString id) with
      | none => rfl
      | some c => rw [hx] at hs; simp at hs
    have hdel : delete_course_data s id = (false, s) := by
      simp [delete_course_data, hlnone]
    rw [hdel]
    have hgn : get_course_data s id = none := hlnone
    refine ⟨⟨fun hcontra => by simp at hcontra, fun hcontra => ?_⟩,
      fun hcontra => ?_, fun _ => rfl⟩
    · rw [hgn] at hcontra; simp at hcontra
    · rw [hgn] at hcontra; simp at hcontra

lemma unitStore_wf : StoreWF unitStore := by
  constructor
  · decide
  · intro p hp
    simp only [unitStore, List.mem_singleton] at hp
    subst hp
    exact ⟨1, by decide, by decide⟩

/-- C6, witness at `unitStore`. -/
theorem C6_witness :
    ((delete_course_data unitStore 1).1 = true ↔
      (get_course_data unitStore 1).isSome = true) ∧
    ((get_course_data unitStore 1).isSome = true →
      get_course_data (delete_course_data unitStore 1).2 1 = none ∧
      ∀ q ∈ get_all_courses (delete_course_data unitStore 1).2, q.1 ≠ 1) ∧
    (get_course_data unitStore 1 = none →
      (delete_course_data unitStore 1).2 = unitStore) :=
  C6_delete_course unitStore 1 unitStore_wf

/-- C8, counterexample: a `record_participation` call that supplies the
empty string as the date stores the current date, not the supplied date,
because the Python idiom `date or today` treats the empty string as absent. -/
theorem C8_record_counterexample :
    (lookupS (record_participation [] 1 "Algebra UE" "Ex1" true (some "")
        "2026-03-01") "1").map
        (fun c => c.sessions.map (fun x => x.date)) = some ["2026-03-01"] ∧
      ("2026-03-01" : String) ≠ "" := by
  decide

/-- C8, amended: `record_participation` followed immediately by
`get_course_data` yields a record whose last session has the recorded
exercise and call flag, and whose date is the supplied date when that is
non-empty, and the current local date when the date was omitted or empty;
a previously absent course is created with `group_size` 1, and
`course_name` always equals the name passed to the call. -/
theorem C8_record_roundtrip (s : Store) (id : Int) (name ex : String)
    (b : Bool) (date : Option String) (today : String) :
    ∃ c, get_course_data (record_participation s id name ex b date today) id
        = some c ∧
      c.course_name = name ∧
      c.sessions.getLast? =
        some { date := sessionDate date today, exercise := ex,
               was_called := b } ∧
      (get_course_data s id = none → c.group_size = 1) := by
  refine ⟨_, lookupS_record s id name ex b date today, rfl, ?_, ?_⟩
  · simp
  · intro h
    have hl : lookupS s (toString id) = none := h
    simp [hl]

/-- C8, witness: recording with no date supplied on the empty store. -/
theorem C8_witness :
    ∃ c, get_course_data (record_participation [] 1 "Algebra UE" "Ex1" true
        none "2026-03-01") 1 = some c ∧
      c.course_name = "Algebra UE" ∧
      c.sessions.getLast? =
        some { date := "2026-03-01", exercise := "Ex1", was_called := true } ∧
      c.group_size = 1 := by
  obtain ⟨c, h1, h2, h3, h4⟩ :=
    C8_record_roundtrip [] 1 "Algebra UE" "Ex1" true none "2026-03-01"
  exact ⟨c, h1, h2, h3, h4 rfl⟩

/-- C9: starting from a store where the course has no sessions, a nonempty
sequence of `record_participation` calls makes `calculate_probability`
report `total_sessions` equal to the number of calls and `times_called`
equal to the number of calls with `was_called = true`. -/
theorem C9_record_counts (s : Store) (id : Int) (calls : List RecordCall)
    (h0 : get_course_data s id = none ∨
      ∃ c, get_course_data s id = some c ∧ c.sessions = [])
    (hne : calls ≠ []) :
    ∃ r, calculate_probability (recordAll s id calls) id = some r ∧
      r.total_sessions = calls.length ∧
      r.times_called = (calls.filter (fun rc => rc.was_called)).length := by
  cases calls with
  | nil => exact absurd rfl hne
  | cons rc rest =>
      rw [recordAll_cons]
      have hfirst : ∃ c₁,
          lookupS (record_participation s id rc.course_name rc.exercise_name
            rc.was_called rc.date rc.today) (toString id) = some c₁ ∧
          c₁.sessions = [toSession rc] := by
        rcases h0 with h | ⟨c, h, hc⟩
        · have hl : lookupS s (toString id) = none := h
          exact ⟨_, lookupS_record s id rc.course_name rc.exercise_name
            rc.was_called rc.date rc.today, by simp [hl, toSession]⟩
        · have hl : lookupS s (toString id) = some c := h
          exact ⟨_, lookupS_record s id rc.course_name rc.exercise_name
            rc.was_called rc.date rc.today, by simp [hl, hc, toSession]⟩
      obtain ⟨c₁, h₁, hs₁⟩ := hfirst
      obtain ⟨c₂, h₂, hs₂⟩ := recordAll_sessions id rest _ c₁ h₁
      have hs₂' : c₂.sessions = (rc :: rest).map toSession := by
        rw [hs₂, hs₁]
        simp
      have hbne : c₂.sessions.isEmpty = false := by rw [hs₂']; rfl
      simp only [calculate_probability, h₂, hbne, Bool.false_eq_true,
        if_false]
      refine ⟨_, rfl, ?_, ?_⟩
      · show c₂.sessions.length = (rc :: rest).length
        rw [hs₂']
        simp
      · show countCalled c₂.sessions =
          ((rc :: rest).filter (fun x => x.was_called)).length
        rw [hs₂', countCalled_map_toSession]

/-- A single `record_participation` call for the C9 witness. -/
def oneCall : RecordCall :=
  { course_name := "A", exercise_name := "Ex1", was_called := true,
    date := none, today := "2026-03-01" }

/-- C9, witness: one call on the empty store. -/
theorem C9_witness :
    ∃ r, calculate_probability (recordAll [] 1 [oneCall]) 1 = some r ∧
      r.total_sessions = [oneCall].length ∧
      r.times_called = ([oneCall].filter (fun rc => rc.was_called)).length :=
  C9_record_counts [] 1 [oneCall] (Or.inl rfl) (List.cons_ne_nil _ _)

end ParticipationTracker
